import Mathlib

/-!
# voyager.body.js : the introspection provider of the Voyager page

A shallow embedding of `voyager.body.js`: the function `introspectionProvider`
and the top-level call `GraphQLVoyager.init(...)`.

The script talks to four things it does not define: the `document` of the page,
the network (`fetch`), the built-ins `JSON.parse` / `JSON.stringify`, and the
Voyager widget.  The document and the network are part of an explicit
`World`; the two JSON built-ins are modelled after the ECMAScript
specification (grammar of ECMA-404, `QuoteJSONString`); the widget is
opaque: only the call made to it is recorded.

JavaScript strings are sequences of UTF-16 code units.
-/

namespace Voyager

/-! ## JavaScript strings and values -/

/-- A JavaScript string: its UTF-16 code units, each below `0x10000`. -/
abbrev JSString := List Nat

/-- UTF-16 code units of one Unicode scalar value. -/
def utf16Char (c : Char) : List Nat :=
  if c.toNat < 0x10000 then [c.toNat]
  else [0xD800 + (c.toNat - 0x10000) / 0x400, 0xDC00 + (c.toNat - 0x10000) % 0x400]

/-- The JavaScript string written as the given source literal. -/
def utf16 (s : String) : JSString :=
  s.toList.flatMap utf16Char

/-- A JSON number, kept as the decimal it is written as:
`(-1)^negative * coefficient * 10^exponent`.  The rounding to an IEEE double
that `JSON.parse` performs afterwards is not modelled. -/
structure JSONNumber where
  negative : Bool
  coefficient : Nat
  exponent : Int
  deriving DecidableEq, Repr

/-- The JavaScript values that occur here: `undefined`, and what `JSON.parse`
can build.  An object is the list of its own properties in creation order. -/
inductive JSValue where
  | undefined
  | null
  | bool (b : Bool)
  | num (n : JSONNumber)
  | str (s : JSString)
  | arr (items : List JSValue)
  | obj (props : List (JSString × JSValue))
  deriving Repr

/-- A thrown JavaScript value (an `Error` object): its name and message. -/
structure JSError where
  name : String
  message : String
  deriving DecidableEq, Repr

/-! ## `JSON.parse` -/

/-- JSON whitespace: tab, line feed, carriage return, space. -/
def isJSONWhitespace (c : Nat) : Bool :=
  c = 0x09 || c = 0x0A || c = 0x0D || c = 0x20

/-- Drops leading JSON whitespace. -/
def skipWs : List Nat → List Nat
  | [] => []
  | c :: cs => if isJSONWhitespace c then skipWs cs else c :: cs

/-- Value of a hexadecimal digit code unit (`0-9`, `a-f`, `A-F`). -/
def hexValue (c : Nat) : Option Nat :=
  if 0x30 ≤ c ∧ c ≤ 0x39 then some (c - 0x30)
  else if 0x61 ≤ c ∧ c ≤ 0x66 then some (c - 0x61 + 10)
  else if 0x41 ≤ c ∧ c ≤ 0x46 then some (c - 0x41 + 10)
  else none

/-- Code unit denoted by the four hexadecimal digits of a `\uXXXX` escape. -/
def hex4 (a b c d : Nat) : Option Nat :=
  match hexValue a, hexValue b, hexValue c, hexValue d with
  | some x, some y, some z, some w => some (x * 4096 + y * 256 + z * 16 + w)
  | _, _, _, _ => none

/-- Code unit denoted by the single-character escape `\e`
(`\"`, `\\`, `\/`, `\b`, `\f`, `\n`, `\r`, `\t`). -/
def unescape (e : Nat) : Option Nat :=
  if e = 0x22 then some 0x22
  else if e = 0x5C then some 0x5C
  else if e = 0x2F then some 0x2F
  else if e = 0x62 then some 0x08
  else if e = 0x66 then some 0x0C
  else if e = 0x6E then some 0x0A
  else if e = 0x72 then some 0x0D
  else if e = 0x74 then some 0x09
  else none

/-- Reads the characters of a JSON string after its opening quote, up to and
including the closing quote: the string value and the remaining input.
Control characters below `0x20` must be escaped. -/
def parseChars : List Nat → Option (JSString × List Nat)
  | [] => none
  | c :: cs =>
    if c = 0x22 then some ([], cs)
    else if c = 0x5C then
      match cs with
      | [] => none
      | e :: cs1 =>
        if e = 0x75 then
          match cs1 with
          | a :: b :: c2 :: d :: cs2 =>
            match hex4 a b c2 d with
            | none => none
            | some u =>
              match parseChars cs2 with
              | none => none
              | some (s, rest) => some (u :: s, rest)
          | _ => none
        else
          match unescape e with
          | none => none
          | some u =>
            match parseChars cs1 with
            | none => none
            | some (s, rest) => some (u :: s, rest)
    else if c < 0x20 then none
    else
      match parseChars cs with
      | none => none
      | some (s, rest) => some (c :: s, rest)

/-- Whether the code unit is a decimal digit. -/
def isDigit (c : Nat) : Bool :=
  0x30 ≤ c && c ≤ 0x39

/-- Reads a maximal run of decimal digits: the value read so far extended by
the digits, how many digits were read, and the remaining input. -/
def takeDigits (acc count : Nat) : List Nat → Nat × Nat × List Nat
  | [] => (acc, count, [])
  | c :: cs =>
    if isDigit c then takeDigits (acc * 10 + (c - 0x30)) (count + 1) cs
    else (acc, count, c :: cs)

/-- Integer part of a JSON number: `0`, or a nonzero digit followed by digits. -/
def parseInt : List Nat → Option (Nat × List Nat)
  | [] => none
  | c :: cs =>
    if c = 0x30 then some (0, cs)
    else if isDigit c then
      let r := takeDigits (c - 0x30) 1 cs
      some (r.1, r.2.2)
    else none

/-- Optional fraction `.digits` after an integer part with value `n`: the
coefficient including the fraction digits, and the number of fraction digits. -/
def parseFrac (n : Nat) : List Nat → Option (Nat × Nat × List Nat)
  | [] => some (n, 0, [])
  | c :: cs =>
    if c = 0x2E then
      let r := takeDigits n 0 cs
      if r.2.1 = 0 then none else some r
    else some (n, 0, c :: cs)

/-- Optional exponent `e`/`E`, optional sign, digits. -/
def parseExp : List Nat → Option (Int × List Nat)
  | [] => some (0, [])
  | c :: cs =>
    if c = 0x65 ∨ c = 0x45 then
      match cs with
      | [] => none
      | s :: cs1 =>
        if s = 0x2D then
          let r := takeDigits 0 0 cs1
          if r.2.1 = 0 then none else some (-(r.1 : Int), r.2.2)
        else if s = 0x2B then
          let r := takeDigits 0 0 cs1
          if r.2.1 = 0 then none else some ((r.1 : Int), r.2.2)
        else
          let r := takeDigits 0 0 (s :: cs1)
          if r.2.1 = 0 then none else some ((r.1 : Int), r.2.2)
    else some (0, c :: cs)

/-- Reads a JSON number: `-? int frac? exp?`. -/
def parseNumber (input : List Nat) : Option (JSONNumber × List Nat) :=
  let signed : Bool × List Nat :=
    match input with
    | [] => (false, [])
    | c :: cs => if c = 0x2D then (true, cs) else (false, c :: cs)
  match parseInt signed.2 with
  | none => none
  | some (n, r1) =>
    match parseFrac n r1 with
    | none => none
    | some (coeff, fracLen, r2) =>
      match parseExp r2 with
      | none => none
      | some (e, r3) => some (⟨signed.1, coeff, e - fracLen⟩, r3)

/-- Outcome of a parsing step: a value and the remaining input, a syntax
error, or not enough fuel for the nesting met. -/
inductive ParseResult (α : Type) where
  | ok (value : α) (rest : List Nat)
  | syntaxError
  | outOfFuel
  deriving Repr

/-- Removes the given code units from the front of the input, if they are there. -/
def expectLiteral : List Nat → List Nat → Option (List Nat)
  | [], input => some input
  | _ :: _, [] => none
  | p :: ps, c :: cs => if p = c then expectLiteral ps cs else none

/-- Defines property `key` of an object under construction: a repeated key
overwrites the earlier value and keeps its place. -/
def setProp (props : List (JSString × JSValue)) (key : JSString) (v : JSValue) :
    List (JSString × JSValue) :=
  if props.any (fun p => p.1 = key) then
    props.map (fun p => if p.1 = key then (key, v) else p)
  else props ++ [(key, v)]

mutual
/-- Reads one JSON value, after optional leading whitespace. -/
def parseValue : Nat → List Nat → ParseResult JSValue
  | 0, _ => .outOfFuel
  | fuel + 1, input =>
    match skipWs input with
    | [] => .syntaxError
    | c :: cs =>
      if c = 0x22 then
        match parseChars cs with
        | none => .syntaxError
        | some (s, rest) => .ok (.str s) rest
      else if c = 0x5B then
        match skipWs cs with
        | [] => .syntaxError
        | d :: ds =>
          if d = 0x5D then .ok (.arr []) ds
          else
            match parseElements fuel [] (d :: ds) with
            | .ok items rest => .ok (.arr items) rest
            | .syntaxError => .syntaxError
            | .outOfFuel => .outOfFuel
      else if c = 0x7B then
        match skipWs cs with
        | [] => .syntaxError
        | d :: ds =>
          if d = 0x7D then .ok (.obj []) ds
          else
            match parseMembers fuel [] (d :: ds) with
            | .ok props rest => .ok (.obj props) rest
            | .syntaxError => .syntaxError
            | .outOfFuel => .outOfFuel
      else if c = 0x6E then
        match expectLiteral [0x75, 0x6C, 0x6C] cs with
        | some rest => .ok .null rest
        | none => .syntaxError
      else if c = 0x74 then
        match expectLiteral [0x72, 0x75, 0x65] cs with
        | some rest => .ok (.bool true) rest
        | none => .syntaxError
      else if c = 0x66 then
        match expectLiteral [0x61, 0x6C, 0x73, 0x65] cs with
        | some rest => .ok (.bool false) rest
        | none => .syntaxError
      else
        match parseNumber (c :: cs) with
        | some (n, rest) => .ok (.num n) rest
        | none => .syntaxError

/-- Reads the elements of a non-empty array up to and including `]`;
`acc` holds the elements read so far. -/
def parseElements : Nat → List JSValue → List Nat → ParseResult (List JSValue)
  | 0, _, _ => .outOfFuel
  | fuel + 1, acc, input =>
    match parseValue fuel input with
    | .syntaxError => .syntaxError
    | .outOfFuel => .outOfFuel
    | .ok v rest =>
      match skipWs rest with
      | [] => .syntaxError
      | c :: cs =>
        if c = 0x2C then parseElements fuel (acc ++ [v]) cs
        else if c = 0x5D then .ok (acc ++ [v]) cs
        else .syntaxError

/-- Reads the members `"key" : value` of a non-empty object up to and
including the closing brace; `acc` holds the properties defined so far. -/
def parseMembers : Nat → List (JSString × JSValue) → List Nat →
    ParseResult (List (JSString × JSValue))
  | 0, _, _ => .outOfFuel
  | fuel + 1, acc, input =>
    match skipWs input with
    | [] => .syntaxError
    | q :: cs =>
      if q = 0x22 then
        match parseChars cs with
        | none => .syntaxError
        | some (key, rest) =>
          match skipWs rest with
          | [] => .syntaxError
          | colon :: rest1 =>
            if colon = 0x3A then
              match parseValue fuel rest1 with
              | .syntaxError => .syntaxError
              | .outOfFuel => .outOfFuel
              | .ok v rest2 =>
                match skipWs rest2 with
                | [] => .syntaxError
                | c :: rest3 =>
                  if c = 0x2C then parseMembers fuel (setProp acc key v) rest3
                  else if c = 0x7D then .ok (setProp acc key v) rest3
                  else .syntaxError
            else .syntaxError
      else .syntaxError
end

/-- The `SyntaxError` that `JSON.parse` throws. -/
def jsonSyntaxError : JSError :=
  ⟨"SyntaxError", "Unexpected token in JSON"⟩

/-- Model of `JSON.parse(text)`: the whole text must be one JSON value between
optional whitespace; otherwise a `SyntaxError` is thrown.  The fuel
`2 * text.length + 1` is never used up (`parseValue_fuel`). -/
def JSON_parse (text : JSString) : Except JSError JSValue :=
  match parseValue (2 * text.length + 1) text with
  | .ok v rest =>
    match skipWs rest with
    | [] => .ok v
    | _ :: _ => .error jsonSyntaxError
  | .syntaxError => .error jsonSyntaxError
  | .outOfFuel => .error jsonSyntaxError

/-! ## `JSON.stringify` -/

/-- Lowercase hexadecimal digit for a value below 16. -/
def hexDigit (n : Nat) : Nat :=
  if n < 10 then 0x30 + n else 0x61 + (n - 10)

/-- The operation `UnicodeEscape(C)`: backslash, `u`, four lowercase hexadecimal digits. -/
def unicodeEscape (c : Nat) : List Nat :=
  [0x5C, 0x75, hexDigit (c / 4096 % 16), hexDigit (c / 256 % 16),
    hexDigit (c / 16 % 16), hexDigit (c % 16)]

/-- Leading (high) surrogate code unit. -/
def isLeadSurrogate (c : Nat) : Bool :=
  0xD800 ≤ c && c ≤ 0xDBFF

/-- Trailing (low) surrogate code unit. -/
def isTrailSurrogate (c : Nat) : Bool :=
  0xDC00 ≤ c && c ≤ 0xDFFF

/-- The characters `QuoteJSONString` puts between the quotes: the two-character
escapes of its table, `\uXXXX` for the other control characters and for
unpaired surrogates, every other code point as it is. -/
def quoteChars : List Nat → List Nat
  | [] => []
  | c :: cs =>
    let tail := quoteChars cs
    if c = 0x08 then 0x5C :: 0x62 :: tail
    else if c = 0x09 then 0x5C :: 0x74 :: tail
    else if c = 0x0A then 0x5C :: 0x6E :: tail
    else if c = 0x0C then 0x5C :: 0x66 :: tail
    else if c = 0x0D then 0x5C :: 0x72 :: tail
    else if c = 0x22 then 0x5C :: 0x22 :: tail
    else if c = 0x5C then 0x5C :: 0x5C :: tail
    else if c < 0x20 then unicodeEscape c ++ tail
    else if isLeadSurrogate c then
      match cs with
      | [] => unicodeEscape c
      | d :: ds =>
        if isTrailSurrogate d then c :: d :: quoteChars ds
        else unicodeEscape c ++ tail
    else if isTrailSurrogate c then unicodeEscape c ++ tail
    else c :: tail

/-- The operation `QuoteJSONString(value)`: the quoted characters between two quotes. -/
def QuoteJSONString (value : JSString) : JSString :=
  0x22 :: (quoteChars value ++ [0x22])

/-- The object literal `{ query: introspectionQuery }`, for a string argument. -/
structure QueryObject where
  query : JSString

/-- Model of `JSON.stringify(o)` for an object whose one own property `query`
holds a string (no indentation): `SerializeJSONObject` gives opening brace,
quoted key, colon, quoted value, closing brace. -/
def JSON_stringify (o : QueryObject) : JSString :=
  [0x7B] ++ QuoteJSONString (utf16 "query") ++ [0x3A] ++ QuoteJSONString o.query ++ [0x7D]

/-! ## Promises -/

/-- A promise, by how it ends: never settled, fulfilled with a value, or
rejected with a reason. -/
inductive Promise (α : Type) where
  | pending
  | fulfilled (value : α)
  | rejected (reason : JSError)
  deriving Repr

/-- Model of `p.then(onFulfilled)`, no rejection handler: a rejection (or a promise that never
settles) passes through untouched; on fulfilment the callback runs and the
new promise follows what it returns, or is rejected with what it throws. -/
def Promise.andThen {α β : Type} (p : Promise α)
    (onFulfilled : α → Except JSError (Promise β)) : Promise β :=
  match p with
  | .pending => .pending
  | .rejected e => .rejected e
  | .fulfilled v =>
    match onFulfilled v with
    | .error e => .rejected e
    | .ok q => q

/-! ## The page and the network -/

/-- An element of the page: its `id` and the current `value` (of an input). -/
structure Element where
  id : String
  value : JSString
  deriving DecidableEq, Repr

/-- The `document`: its elements in tree order. -/
structure Document where
  elements : List Element
  deriving DecidableEq, Repr

/-- Model of `document.getElementById(id)`: the first element with that id, or `null`. -/
def Document.getElementById (d : Document) (id : String) : Option Element :=
  d.elements.find? (fun e => e.id = id)

/-- The second argument of `fetch`. -/
structure RequestInit where
  method : JSString
  headers : List (JSString × JSString)
  body : JSString
  credentials : JSString
  deriving DecidableEq, Repr

/-- One call `fetch(input, init)`. -/
structure FetchCall where
  input : JSString
  init : RequestInit
  deriving DecidableEq, Repr

/-- A `Response`: status line, headers, and what `response.text()` gives. -/
structure Response where
  status : Nat
  statusText : JSString
  headers : List (JSString × JSString)
  text : Promise JSString

/-- The world the script runs in: the page, how the network answers a call of
`fetch`, and the calls of `fetch` made so far. -/
structure World where
  document : Document
  fetch : FetchCall → Promise Response
  requests : List FetchCall

/-- ASCII upper-casing of a code unit. -/
def asciiUpper (c : Nat) : Nat :=
  if 0x61 ≤ c ∧ c ≤ 0x7A then c - 0x20 else c

/-- The method of the request that `fetch` builds: the Fetch standard
upper-cases `DELETE`, `GET`, `HEAD`, `OPTIONS`, `POST` and `PUT` whatever
their case, and leaves any other method as given. -/
def normalizeMethod (method : JSString) : JSString :=
  if method.map asciiUpper ∈
      [utf16 "DELETE", utf16 "GET", utf16 "HEAD", utf16 "OPTIONS", utf16 "POST", utf16 "PUT"]
  then method.map asciiUpper
  else method

/-- The value a header list has for a name, names compared without case. -/
def getHeader (headers : List (JSString × JSString)) (name : JSString) : Option JSString :=
  (headers.find? (fun h => h.1.map asciiUpper = name.map asciiUpper)).map (fun h => h.2)

/-! ## The script -/

/-- The `TypeError` of reading `.value` of `null`. -/
def nullValueTypeError : JSError :=
  ⟨"TypeError", "Cannot read properties of null (reading value)"⟩

/-- The arguments of the call of `fetch` (lines 3 to 10). -/
def fetchArguments (path : JSString) (introspectionQuery : JSString) : FetchCall :=
  { input := path
    init :=
      { method := utf16 "post"
        headers :=
          [(utf16 "Accept", utf16 "application/json"),
            (utf16 "Content-Type", utf16 "application/json")]
        body := JSON_stringify { query := introspectionQuery }
        credentials := utf16 "include" } }

/-- The second `then` callback (lines 13 to 19): `JSON.parse(responseBody)`,
and `responseBody` itself when that throws. -/
def parseOrRaw (responseBody : JSString) : JSValue :=
  match JSON_parse responseBody with
  | .ok v => v
  | .error _ => .str responseBody

/-- The function `introspectionProvider(introspectionQuery)`: what the call
returns (a promise) or throws, and the world after the call. -/
def introspectionProvider (w : World) (introspectionQuery : JSString) :
    Except JSError (Promise JSValue) × World :=
  match w.document.getElementById "graphqlEndpoint" with
  | none => (.error nullValueTypeError, w)
  | some element =>
    let path := element.value
    let call := fetchArguments path introspectionQuery
    let promise :=
      ((w.fetch call).andThen (fun response => .ok response.text)).andThen
        (fun responseBody => .ok (.fulfilled (parseOrRaw responseBody)))
    (.ok promise, { w with requests := w.requests ++ [call] })

/-- The options object passed to `GraphQLVoyager.init`. -/
structure VoyagerOptions where
  introspection : World → JSString → Except JSError (Promise JSValue) × World

/-- One call `GraphQLVoyager.init(container, options)`. -/
structure InitCall where
  container : Option Element
  options : VoyagerOptions

/-- Running the script: the function declaration has no effect of its own;
the top-level statement (lines 23 to 25) looks up the element `voyager`,
builds the options object and calls `GraphQLVoyager.init` with the two.  The
widget is not part of the script: `GraphQLVoyager_init` is what its `init`
does to the world.  The result is the calls made to the widget and the world
after the script has run. -/
def loadScript (GraphQLVoyager_init : Option Element → VoyagerOptions → World → World)
    (w : World) : List InitCall × World :=
  let container := w.document.getElementById "voyager"
  let options : VoyagerOptions := { introspection := introspectionProvider }
  ([{ container := container, options := options }], GraphQLVoyager_init container options w)

/-- A widget whose `init` only keeps its arguments: it calls nothing back. -/
def registerOnly : Option Element → VoyagerOptions → World → World :=
  fun _ _ w => w

/-! ## Predicates on parsing steps -/

/-- With fuel `fuel`, `parseValue` consumes input and, given fuel above twice
the input length, does not run out of fuel. -/
def ValueProgress (fuel : Nat) : Prop :=
  ∀ input : List Nat,
    (∀ v rest, parseValue fuel input = .ok v rest → rest.length < input.length) ∧
    (2 * input.length < fuel → parseValue fuel input ≠ .outOfFuel)

/-- The same for `parseElements`, which needs one more unit of fuel. -/
def ElementsProgress (fuel : Nat) : Prop :=
  ∀ (acc : List JSValue) (input : List Nat),
    (∀ vs rest, parseElements fuel acc input = .ok vs rest → rest.length < input.length) ∧
    (2 * input.length + 1 < fuel → parseElements fuel acc input ≠ .outOfFuel)

/-- The same for `parseMembers`. -/
def MembersProgress (fuel : Nat) : Prop :=
  ∀ (acc : List (JSString × JSValue)) (input : List Nat),
    (∀ ps rest, parseMembers fuel acc input = .ok ps rest → rest.length < input.length) ∧
    (2 * input.length + 1 < fuel → parseMembers fuel acc input ≠ .outOfFuel)

/-- Relation between the results with less and with more fuel: the first
ran out of fuel, or the two agree. -/
def FuelStable {α : Type} (less more : ParseResult α) : Prop :=
  less = .outOfFuel ∨ more = less

/-! ## A concrete page, for the examples -/

/-- A page with the two elements the script looks up: the input
`graphqlEndpoint` holding `/graphql`, and the container `voyager`. -/
def examplePage : Document :=
  ⟨[⟨"graphqlEndpoint", utf16 "/graphql"⟩, ⟨"voyager", []⟩]⟩

/-- A world on `examplePage` whose network gives every call the same answer;
no request has been made yet. -/
def exampleWorld (answer : Promise Response) : World :=
  { document := examplePage, fetch := fun _ => answer, requests := [] }

/-- A response with the given status and body text, and no headers. -/
def exampleResponse (status : Nat) (body : JSString) : Response :=
  { status := status, statusText := [], headers := [], text := .fulfilled body }

/-- The body text `{"data":{}}`. -/
def dataBody : JSString :=
  utf16 "\x7b\"data\":\x7b\x7d\x7d"

/-- The body text `{"errors":[]}`. -/
def errorsBody : JSString :=
  utf16 "\x7b\"errors\":[]\x7d"

/-- A query with a quote, a backslash and a line feed in it: `{a(b:"c\d")`,
a line feed, and a closing brace. -/
def quotedQuery : JSString :=
  utf16 "\x7ba(b:\"c\\d\")\n\x7d"

/-- An introspection query as the widget may send it:
`query IntrospectionQuery { __schema { queryType { name } } }`. -/
def exampleQuery : JSString :=
  utf16 "query IntrospectionQuery \x7b __schema \x7b queryType \x7b name \x7d \x7d \x7d"

/-! # Theorems -/

/-! ## Facts about the lexical functions -/

theorem skipWs_length_le (l : List Nat) : (skipWs l).length ≤ l.length := by
  induction l with
  | nil => simp [skipWs]
  | cons c cs ih =>
    unfold skipWs
    split
    · simp only [List.length_cons]; omega
    · exact Nat.le_refl _

theorem skipWs_of_not_ws (c : Nat) (cs : List Nat) (h : isJSONWhitespace c = false) :
    skipWs (c :: cs) = c :: cs := by
  simp [skipWs, h]

/-- A string value is shorter than the text it was read from, by at least the
closing quote. -/
theorem parseChars_length (n : Nat) : ∀ (cs : List Nat) (s : JSString) (rest : List Nat),
    cs.length ≤ n → parseChars cs = some (s, rest) → s.length + 1 + rest.length ≤ cs.length := by
  induction n with
  | zero =>
    intro cs s rest hn h
    have : cs = [] := List.length_eq_zero.mp (Nat.le_zero.mp hn)
    subst this
    simp [parseChars] at h
  | succ n ih =>
    intro cs s rest hn h
    unfold parseChars at h
    split at h
    · simp at h
    · rename_i c cs0
      simp only [List.length_cons] at hn ⊢
      split at h
      · simp only [Option.some.injEq, Prod.mk.injEq] at h
        obtain ⟨rfl, rfl⟩ := h
        simp only [List.length_nil]; omega
      · split at h
        · split at h
          · simp at h
          · rename_i e cs1
            simp only [List.length_cons] at hn ⊢
            split at h
            · split at h
              · rename_i a b c2 d cs2
                simp only [List.length_cons] at hn ⊢
                split at h
                · simp at h
                · split at h
                  · simp at h
                  · rename_i s1 r1 hp
                    simp only [Option.some.injEq, Prod.mk.injEq] at h
                    obtain ⟨rfl, rfl⟩ := h
                    have := ih cs2 s1 r1 (by omega) hp
                    simp only [List.length_cons]
                    omega
              · simp at h
            · split at h
              · simp at h
              · split at h
                · simp at h
                · rename_i s1 r1 hp
                  simp only [Option.some.injEq, Prod.mk.injEq] at h
                  obtain ⟨rfl, rfl⟩ := h
                  have := ih cs1 s1 r1 (by omega) hp
                  simp only [List.length_cons]
                  omega
        · split at h
          · simp at h
          · split at h
            · simp at h
            · rename_i s1 r1 hp
              simp only [Option.some.injEq, Prod.mk.injEq] at h
              obtain ⟨rfl, rfl⟩ := h
              have := ih cs0 s1 r1 (by omega) hp
              simp only [List.length_cons]
              omega

theorem takeDigits_length (l : List Nat) : ∀ (acc count : Nat),
    (takeDigits acc count l).2.2.length ≤ l.length := by
  induction l with
  | nil => intro acc count; simp [takeDigits]
  | cons c cs ih =>
    intro acc count
    unfold takeDigits
    split
    · have := ih (acc * 10 + (c - 0x30)) (count + 1)
      simp only [List.length_cons]; omega
    · exact Nat.le_refl _

theorem parseInt_length (l : List Nat) (n : Nat) (rest : List Nat)
    (h : parseInt l = some (n, rest)) : rest.length < l.length := by
  unfold parseInt at h
  split at h
  · simp at h
  · rename_i c cs
    split at h
    · simp only [Option.some.injEq, Prod.mk.injEq] at h
      obtain ⟨_, rfl⟩ := h
      simp
    · split at h
      · simp only [Option.some.injEq, Prod.mk.injEq] at h
        obtain ⟨_, rfl⟩ := h
        have := takeDigits_length cs (c - 0x30) 1
        simp only [List.length_cons]; omega
      · simp at h

theorem parseFrac_length (n : Nat) (l : List Nat) (r : Nat × Nat × List Nat)
    (h : parseFrac n l = some r) : r.2.2.length ≤ l.length := by
  unfold parseFrac at h
  split at h
  · simp only [Option.some.injEq] at h
    subst h; simp
  · rename_i c cs
    split at h
    · dsimp only at h
      split at h
      · simp at h
      · simp only [Option.some.injEq] at h
        subst h
        have := takeDigits_length cs n 0
        simp only [List.length_cons]; omega
    · simp only [Option.some.injEq] at h
      subst h; simp

theorem parseExp_length (l : List Nat) (r : Int × List Nat)
    (h : parseExp l = some r) : r.2.length ≤ l.length := by
  unfold parseExp at h
  split at h
  · simp only [Option.some.injEq] at h
    subst h; simp
  · rename_i c cs
    split at h
    · split at h
      · simp at h
      · rename_i s cs1
        have h1 := takeDigits_length cs1 0 0
        have h2 := takeDigits_length (s :: cs1) 0 0
        simp only [List.length_cons] at h2 ⊢
        dsimp only at h
        split at h
        · split at h
          · simp at h
          · simp only [Option.some.injEq] at h
            subst h; simp only; omega
        · split at h
          · split at h
            · simp at h
            · simp only [Option.some.injEq] at h
              subst h; simp only; omega
          · split at h
            · simp at h
            · simp only [Option.some.injEq] at h
              subst h; simp only; omega
    · simp only [Option.some.injEq] at h
      subst h; simp

theorem parseNumber_length (l : List Nat) (n : JSONNumber) (rest : List Nat)
    (h : parseNumber l = some (n, rest)) : rest.length < l.length := by
  unfold parseNumber at h
  simp only at h
  split at h
  · simp at h
  · rename_i m r1 hi
    split at h
    · simp at h
    · rename_i coeff fracLen r2 hf
      split at h
      · simp at h
      · rename_i e r3 he
        simp only [Option.some.injEq, Prod.mk.injEq] at h
        obtain ⟨_, rfl⟩ := h
        have h1 := parseInt_length _ _ _ hi
        have h2 := parseFrac_length _ _ _ hf
        have h3 := parseExp_length _ _ he
        simp only at h2 h3
        have h0 : (match l with
            | [] => ((false, []) : Bool × List Nat)
            | c :: cs => if c = 0x2D then (true, cs) else (false, c :: cs)).2.length ≤ l.length := by
          split
          · simp
          · split <;> simp
        omega

theorem expectLiteral_length (p : List Nat) : ∀ (l rest : List Nat),
    expectLiteral p l = some rest → rest.length ≤ l.length := by
  induction p with
  | nil => intro l rest h; simp [expectLiteral] at h; subst h; exact Nat.le_refl _
  | cons a p ih =>
    intro l rest h
    cases l with
    | nil => simp [expectLiteral] at h
    | cons c cs =>
      simp only [expectLiteral] at h
      split at h
      · have := ih cs rest h
        simp only [List.length_cons]; omega
      · simp at h

/-! ## The parser consumes input and never runs out of fuel -/

theorem valueProgress_succ (f : Nat) (hE : ElementsProgress f) (hM : MembersProgress f) :
    ValueProgress (f + 1) := by
  intro input
  have hws := skipWs_length_le input
  unfold parseValue
  split
  · simp
  · rename_i c cs hskip
    rw [hskip] at hws
    simp only [List.length_cons] at hws
    split
    · split
      · simp
      · rename_i s rest hp
        have := parseChars_length cs.length cs s rest (Nat.le_refl _) hp
        refine ⟨?_, by simp⟩
        intro v r h
        simp only [ParseResult.ok.injEq] at h
        obtain ⟨_, rfl⟩ := h
        omega
    · split
      · have hws2 := skipWs_length_le cs
        split
        · simp
        · rename_i d ds hskip2
          rw [hskip2] at hws2
          simp only [List.length_cons] at hws2
          split
          · refine ⟨?_, by simp⟩
            intro v r h
            simp only [ParseResult.ok.injEq] at h
            obtain ⟨_, rfl⟩ := h
            omega
          · have hE1 := hE [] (d :: ds)
            simp only [List.length_cons] at hE1
            split
            · rename_i items rest hpe
              refine ⟨?_, by simp⟩
              intro v r h
              simp only [ParseResult.ok.injEq] at h
              obtain ⟨_, rfl⟩ := h
              have := hE1.1 items rest hpe
              omega
            · simp
            · rename_i hpe
              refine ⟨by simp, ?_⟩
              intro hfuel
              exact absurd hpe (hE1.2 (by omega))
      · split
        · have hws2 := skipWs_length_le cs
          split
          · simp
          · rename_i d ds hskip2
            rw [hskip2] at hws2
            simp only [List.length_cons] at hws2
            split
            · refine ⟨?_, by simp⟩
              intro v r h
              simp only [ParseResult.ok.injEq] at h
              obtain ⟨_, rfl⟩ := h
              omega
            · have hM1 := hM [] (d :: ds)
              simp only [List.length_cons] at hM1
              split
              · rename_i props rest hpm
                refine ⟨?_, by simp⟩
                intro v r h
                simp only [ParseResult.ok.injEq] at h
                obtain ⟨_, rfl⟩ := h
                have := hM1.1 props rest hpm
                omega
              · simp
              · rename_i hpm
                refine ⟨by simp, ?_⟩
                intro hfuel
                exact absurd hpm (hM1.2 (by omega))
        · split
          · split
            · rename_i rest hl
              have := expectLiteral_length _ _ _ hl
              refine ⟨?_, by simp⟩
              intro v r h
              simp only [ParseResult.ok.injEq] at h
              obtain ⟨_, rfl⟩ := h
              omega
            · simp
          · split
            · split
              · rename_i rest hl
                have := expectLiteral_length _ _ _ hl
                refine ⟨?_, by simp⟩
                intro v r h
                simp only [ParseResult.ok.injEq] at h
                obtain ⟨_, rfl⟩ := h
                omega
              · simp
            · split
              · split
                · rename_i rest hl
                  have := expectLiteral_length _ _ _ hl
                  refine ⟨?_, by simp⟩
                  intro v r h
                  simp only [ParseResult.ok.injEq] at h
                  obtain ⟨_, rfl⟩ := h
                  omega
                · simp
              · split
                · rename_i n rest hn
                  have := parseNumber_length _ _ _ hn
                  simp only [List.length_cons] at this
                  refine ⟨?_, by simp⟩
                  intro v r h
                  simp only [ParseResult.ok.injEq] at h
                  obtain ⟨_, rfl⟩ := h
                  omega
                · simp

theorem elementsProgress_succ (f : Nat) (hV : ValueProgress f) (hE : ElementsProgress f) :
    ElementsProgress (f + 1) := by
  intro acc input
  unfold parseElements
  have hV1 := hV input
  split
  · simp
  · rename_i hpv
    refine ⟨by simp, ?_⟩
    intro hfuel
    exact absurd hpv (hV1.2 (by omega))
  · rename_i v rest hpv
    have hlt := hV1.1 v rest hpv
    have hws := skipWs_length_le rest
    split
    · simp
    · rename_i c cs hskip
      rw [hskip] at hws
      simp only [List.length_cons] at hws
      have hE1 := hE (acc ++ [v]) cs
      split
      · refine ⟨?_, ?_⟩
        · intro vs r h
          have := hE1.1 vs r h
          omega
        · intro hfuel
          exact hE1.2 (by omega)
      · split
        · refine ⟨?_, by simp⟩
          intro vs r h
          simp only [ParseResult.ok.injEq] at h
          obtain ⟨_, rfl⟩ := h
          omega
        · simp

theorem membersProgress_succ (f : Nat) (hV : ValueProgress f) (hM : MembersProgress f) :
    MembersProgress (f + 1) := by
  intro acc input
  unfold parseMembers
  have hws := skipWs_length_le input
  split
  · simp
  · rename_i q cs hskip
    rw [hskip] at hws
    simp only [List.length_cons] at hws
    split
    · split
      · simp
      · rename_i key rest hp
        have hk := parseChars_length cs.length cs key rest (Nat.le_refl _) hp
        have hws1 := skipWs_length_le rest
        split
        · simp
        · rename_i colon rest1 hskip1
          rw [hskip1] at hws1
          simp only [List.length_cons] at hws1
          split
          · have hV1 := hV rest1
            split
            · simp
            · rename_i hpv
              refine ⟨by simp, ?_⟩
              intro hfuel
              exact absurd hpv (hV1.2 (by omega))
            · rename_i v rest2 hpv
              have hlt := hV1.1 v rest2 hpv
              have hws2 := skipWs_length_le rest2
              split
              · simp
              · rename_i c rest3 hskip2
                rw [hskip2] at hws2
                simp only [List.length_cons] at hws2
                have hM1 := hM (setProp acc key v) rest3
                split
                · refine ⟨?_, ?_⟩
                  · intro ps r h
                    have := hM1.1 ps r h
                    omega
                  · intro hfuel
                    exact hM1.2 (by omega)
                · split
                  · refine ⟨?_, by simp⟩
                    intro ps r h
                    simp only [ParseResult.ok.injEq] at h
                    obtain ⟨_, rfl⟩ := h
                    omega
                  · simp
          · simp
    · simp

theorem parse_progress (fuel : Nat) :
    ValueProgress fuel ∧ ElementsProgress fuel ∧ MembersProgress fuel := by
  induction fuel with
  | zero =>
    refine ⟨?_, ?_, ?_⟩
    · intro input; simp [parseValue]
    · intro acc input; simp [parseElements]
    · intro acc input; simp [parseMembers]
  | succ f ih =>
    exact ⟨valueProgress_succ f ih.2.1 ih.2.2, elementsProgress_succ f ih.1 ih.2.1,
      membersProgress_succ f ih.1 ih.2.2⟩

/-- The fuel that `JSON_parse` gives `parseValue` is never used up. -/
theorem parseValue_fuel (text : JSString) :
    parseValue (2 * text.length + 1) text ≠ .outOfFuel :=
  ((parse_progress (2 * text.length + 1)).1 text).2 (by omega)

/-! ## More fuel does not change a result -/

theorem elements_fuel_succ (f : Nat)
    (hV : ∀ input, FuelStable (parseValue f input) (parseValue (f + 1) input))
    (hE : ∀ acc input, FuelStable (parseElements f acc input) (parseElements (f + 1) acc input)) :
    ∀ acc input, FuelStable (parseElements (f + 1) acc input) (parseElements (f + 2) acc input) := by
  intro acc input
  rw [parseElements.eq_def (f + 2), parseElements.eq_def (f + 1)]
  dsimp only
  rcases hV input with h | h
  · left; rw [h]
  · rw [h]
    cases hpv : parseValue f input with
    | syntaxError => right; rfl
    | outOfFuel => right; rfl
    | ok v rest =>
      dsimp only
      cases hs : skipWs rest with
      | nil => right; rfl
      | cons c cs =>
        dsimp only
        by_cases hc : c = 0x2C
        · rw [if_pos hc, if_pos hc]
          exact hE (acc ++ [v]) cs
        · rw [if_neg hc, if_neg hc]
          right; rfl

theorem members_fuel_succ (f : Nat)
    (hV : ∀ input, FuelStable (parseValue f input) (parseValue (f + 1) input))
    (hM : ∀ acc input, FuelStable (parseMembers f acc input) (parseMembers (f + 1) acc input)) :
    ∀ acc input, FuelStable (parseMembers (f + 1) acc input) (parseMembers (f + 2) acc input) := by
  intro acc input
  rw [parseMembers.eq_def (f + 2), parseMembers.eq_def (f + 1)]
  dsimp only
  cases hs : skipWs input with
  | nil => right; rfl
  | cons q cs =>
    dsimp only
    by_cases hq : q = 0x22
    · rw [if_pos hq, if_pos hq]
      cases hp : parseChars cs with
      | none => right; rfl
      | some kr =>
        obtain ⟨key, rest⟩ := kr
        dsimp only
        cases hs1 : skipWs rest with
        | nil => right; rfl
        | cons colon rest1 =>
          dsimp only
          by_cases hcolon : colon = 0x3A
          · rw [if_pos hcolon, if_pos hcolon]
            rcases hV rest1 with h | h
            · left; rw [h]
            · rw [h]
              cases hpv : parseValue f rest1 with
              | syntaxError => right; rfl
              | outOfFuel => right; rfl
              | ok v rest2 =>
                dsimp only
                cases hs2 : skipWs rest2 with
                | nil => right; rfl
                | cons c rest3 =>
                  dsimp only
                  by_cases hc : c = 0x2C
                  · rw [if_pos hc, if_pos hc]
                    exact hM (setProp acc key v) rest3
                  · rw [if_neg hc, if_neg hc]
                    right; rfl
          · rw [if_neg hcolon, if_neg hcolon]
            right; rfl
    · rw [if_neg hq, if_neg hq]
      right; rfl

theorem value_fuel_succ (f : Nat)
    (hE : ∀ acc input, FuelStable (parseElements f acc input) (parseElements (f + 1) acc input))
    (hM : ∀ acc input, FuelStable (parseMembers f acc input) (parseMembers (f + 1) acc input)) :
    ∀ input, FuelStable (parseValue (f + 1) input) (parseValue (f + 2) input) := by
  intro input
  rw [parseValue.eq_def (f + 2), parseValue.eq_def (f + 1)]
  dsimp only
  cases hs : skipWs input with
  | nil => right; rfl
  | cons c cs =>
    dsimp only
    by_cases h1 : c = 0x22
    · rw [if_pos h1, if_pos h1]; right; rfl
    rw [if_neg h1, if_neg h1]
    by_cases h2 : c = 0x5B
    · rw [if_pos h2, if_pos h2]
      cases hs1 : skipWs cs with
      | nil => right; rfl
      | cons d ds =>
        dsimp only
        by_cases hd : d = 0x5D
        · rw [if_pos hd, if_pos hd]; right; rfl
        · rw [if_neg hd, if_neg hd]
          rcases hE [] (d :: ds) with h | h
          · left; rw [h]
          · rw [h]; right; rfl
    rw [if_neg h2, if_neg h2]
    by_cases h3 : c = 0x7B
    · rw [if_pos h3, if_pos h3]
      cases hs1 : skipWs cs with
      | nil => right; rfl
      | cons d ds =>
        dsimp only
        by_cases hd : d = 0x7D
        · rw [if_pos hd, if_pos hd]; right; rfl
        · rw [if_neg hd, if_neg hd]
          rcases hM [] (d :: ds) with h | h
          · left; rw [h]
          · rw [h]; right; rfl
    rw [if_neg h3, if_neg h3]
    right; rfl

/-- One more unit of fuel changes no result other than `outOfFuel`. -/
theorem parse_fuel_succ (f : Nat) :
    (∀ input, FuelStable (parseValue f input) (parseValue (f + 1) input)) ∧
    (∀ acc input, FuelStable (parseElements f acc input) (parseElements (f + 1) acc input)) ∧
    (∀ acc input, FuelStable (parseMembers f acc input) (parseMembers (f + 1) acc input)) := by
  induction f with
  | zero =>
    refine ⟨?_, ?_, ?_⟩
    · intro input; left; simp [parseValue]
    · intro acc input; left; simp [parseElements]
    · intro acc input; left; simp [parseMembers]
  | succ f ih =>
    exact ⟨value_fuel_succ f ih.2.1 ih.2.2, elements_fuel_succ f ih.1 ih.2.1,
      members_fuel_succ f ih.1 ih.2.2⟩

/-- The fuel of `JSON_parse` is enough: any larger fuel gives `parseValue` the
same result on the text. -/
theorem parseValue_fuel_enough (text : JSString) (extra : Nat) :
    parseValue (2 * text.length + 1 + extra) text = parseValue (2 * text.length + 1) text := by
  induction extra with
  | zero => rfl
  | succ k ih =>
    rcases (parse_fuel_succ (2 * text.length + 1 + k)).1 text with h | h
    · rw [ih] at h
      exact absurd h (parseValue_fuel text)
    · rw [← ih, ← h]
      rfl

/-! ## Quoting a string and reading it back -/

theorem hexValue_hexDigit (d : Nat) (h : d < 16) : hexValue (hexDigit d) = some d := by
  interval_cases d <;> decide

theorem hex4_unicodeEscape (c : Nat) (h : c < 0x10000) :
    hex4 (hexDigit (c / 4096 % 16)) (hexDigit (c / 256 % 16)) (hexDigit (c / 16 % 16))
      (hexDigit (c % 16)) = some c := by
  unfold hex4
  rw [hexValue_hexDigit _ (Nat.mod_lt _ (by decide)), hexValue_hexDigit _ (Nat.mod_lt _ (by decide)),
    hexValue_hexDigit _ (Nat.mod_lt _ (by decide)), hexValue_hexDigit _ (Nat.mod_lt _ (by decide))]
  simp only [Option.some.injEq]
  omega

theorem parseChars_closing (rest : List Nat) : parseChars (0x22 :: rest) = some ([], rest) := by
  rw [parseChars.eq_def]; simp

/-- Reading a two-character escape. -/
theorem parseChars_escape (e u : Nat) (he : e ≠ 0x75) (hu : unescape e = some u)
    (tail : List Nat) :
    parseChars (0x5C :: e :: tail) =
      match parseChars tail with
      | none => none
      | some (s, rest) => some (u :: s, rest) := by
  rw [parseChars.eq_def]; simp [he, hu]

/-- Reading an escape `\uXXXX` written by `unicodeEscape`. -/
theorem parseChars_unicodeEscape (c : Nat) (h : c < 0x10000) (tail : List Nat) :
    parseChars (unicodeEscape c ++ tail) =
      match parseChars tail with
      | none => none
      | some (s, rest) => some (c :: s, rest) := by
  simp only [unicodeEscape, List.cons_append, List.nil_append]
  rw [parseChars.eq_def]
  simp [hex4_unicodeEscape c h]

/-- Reading a code unit that needs no escape. -/
theorem parseChars_plain (c : Nat) (h1 : c ≠ 0x22) (h2 : c ≠ 0x5C) (h3 : ¬ c < 0x20)
    (tail : List Nat) :
    parseChars (c :: tail) =
      match parseChars tail with
      | none => none
      | some (s, rest) => some (c :: s, rest) := by
  rw [parseChars.eq_def]
  simp [h1, h2, h3]

/-- Reading back what `quoteChars` wrote gives the original code units. -/
theorem parseChars_quoteChars (n : Nat) : ∀ (q : JSString) (rest : List Nat),
    q.length ≤ n → parseChars (quoteChars q ++ 0x22 :: rest) = some (q, rest) := by
  induction n with
  | zero =>
    intro q rest hn
    have : q = [] := List.length_eq_zero.mp (Nat.le_zero.mp hn)
    subst this
    simp [quoteChars, parseChars_closing]
  | succ n ih =>
    intro q rest hn
    cases q with
    | nil => simp [quoteChars, parseChars_closing]
    | cons c cs =>
      simp only [List.length_cons] at hn
      have ihcs := ih cs rest (by omega)
      rw [quoteChars.eq_def]
      dsimp only
      by_cases h1 : c = 0x08
      · rw [if_pos h1]; subst c
        rw [List.cons_append, List.cons_append,
          parseChars_escape 0x62 0x08 (by decide) (by decide), ihcs]
      rw [if_neg h1]
      by_cases h2 : c = 0x09
      · rw [if_pos h2]; subst c
        rw [List.cons_append, List.cons_append,
          parseChars_escape 0x74 0x09 (by decide) (by decide), ihcs]
      rw [if_neg h2]
      by_cases h3 : c = 0x0A
      · rw [if_pos h3]; subst c
        rw [List.cons_append, List.cons_append,
          parseChars_escape 0x6E 0x0A (by decide) (by decide), ihcs]
      rw [if_neg h3]
      by_cases h4 : c = 0x0C
      · rw [if_pos h4]; subst c
        rw [List.cons_append, List.cons_append,
          parseChars_escape 0x66 0x0C (by decide) (by decide), ihcs]
      rw [if_neg h4]
      by_cases h5 : c = 0x0D
      · rw [if_pos h5]; subst c
        rw [List.cons_append, List.cons_append,
          parseChars_escape 0x72 0x0D (by decide) (by decide), ihcs]
      rw [if_neg h5]
      by_cases h6 : c = 0x22
      · rw [if_pos h6]; subst c
        rw [List.cons_append, List.cons_append,
          parseChars_escape 0x22 0x22 (by decide) (by decide), ihcs]
      rw [if_neg h6]
      by_cases h7 : c = 0x5C
      · rw [if_pos h7]; subst c
        rw [List.cons_append, List.cons_append,
          parseChars_escape 0x5C 0x5C (by decide) (by decide), ihcs]
      rw [if_neg h7]
      by_cases h8 : c < 0x20
      · rw [if_pos h8, List.append_assoc, parseChars_unicodeEscape c (by omega), ihcs]
      rw [if_neg h8]
      by_cases hlead : isLeadSurrogate c = true
      · rw [if_pos hlead]
        simp only [isLeadSurrogate, Bool.and_eq_true, decide_eq_true_eq] at hlead
        cases cs with
        | nil =>
          dsimp only
          rw [parseChars_unicodeEscape c (by omega), parseChars_closing]
        | cons d ds =>
          dsimp only
          by_cases htrail : isTrailSurrogate d = true
          · rw [if_pos htrail]
            simp only [isTrailSurrogate, Bool.and_eq_true, decide_eq_true_eq] at htrail
            simp only [List.length_cons] at hn
            rw [List.cons_append, List.cons_append,
              parseChars_plain c (by omega) (by omega) (by omega),
              parseChars_plain d (by omega) (by omega) (by omega),
              ih ds rest (by omega)]
          · rw [if_neg htrail, List.append_assoc, parseChars_unicodeEscape c (by omega), ihcs]
      rw [if_neg hlead]
      by_cases htrail : isTrailSurrogate c = true
      · rw [if_pos htrail]
        simp only [isTrailSurrogate, Bool.and_eq_true, decide_eq_true_eq] at htrail
        rw [List.append_assoc, parseChars_unicodeEscape c (by omega), ihcs]
      · rw [if_neg htrail, List.cons_append,
          parseChars_plain c (by omega) (by omega) (by omega), ihcs]

/-! ## Serialising the query object and parsing it back -/

/-- A JSON value that starts with a quote is a string. -/
theorem parseValue_string (fuel : Nat) (cs : List Nat) :
    parseValue (fuel + 1) (0x22 :: cs) =
      match parseChars cs with
      | none => .syntaxError
      | some (s, rest) => .ok (.str s) rest := by
  rw [parseValue.eq_def]
  simp [skipWs, isJSONWhitespace]

/-- The text of `JSON.stringify({ query: q })`, spelled out. -/
theorem JSON_stringify_eq (q : JSString) :
    JSON_stringify ⟨q⟩ =
      0x7B :: 0x22 :: (quoteChars (utf16 "query") ++
        0x22 :: 0x3A :: 0x22 :: (quoteChars q ++ 0x22 :: [0x7D])) := by
  simp [JSON_stringify, QuoteJSONString]

/-- Parsing the text of `JSON.stringify({ query: q })` with any fuel from 3 on. -/
theorem parseValue_stringify (fuel : Nat) (q : JSString) :
    parseValue (fuel + 3) (JSON_stringify ⟨q⟩) =
      .ok (.obj [(utf16 "query", .str q)]) [] := by
  rw [JSON_stringify_eq, parseValue.eq_def]
  simp [skipWs, isJSONWhitespace]
  rw [parseMembers.eq_def]
  simp [skipWs, isJSONWhitespace]
  rw [parseChars_quoteChars _ _ _ (Nat.le_refl _)]
  simp [skipWs, isJSONWhitespace]
  rw [parseValue_string, parseChars_quoteChars _ _ _ (Nat.le_refl _)]
  simp [skipWs, isJSONWhitespace, setProp]

/-- The value of `JSON.parse(JSON.stringify({ query: q }))` is the object `{ query: q }`. -/
theorem JSON_parse_stringify (q : JSString) :
    JSON_parse (JSON_stringify ⟨q⟩) = .ok (.obj [(utf16 "query", .str q)]) := by
  have hlen : 1 ≤ (JSON_stringify ⟨q⟩).length := by
    rw [JSON_stringify_eq]; simp
  have hfuel : 2 * (JSON_stringify ⟨q⟩).length + 1 =
      (2 * (JSON_stringify ⟨q⟩).length - 2) + 3 := by omega
  unfold JSON_parse
  rw [hfuel, parseValue_stringify]
  simp [skipWs]

/-! ## What `JSON.parse` can return -/

/-- A value read by `parseValue` is never `undefined`, and when it is a
string, the string is at least two code units shorter than the text read. -/
theorem parseValue_shape (fuel : Nat) (input : List Nat) (v : JSValue) (rest : List Nat)
    (h : parseValue fuel input = .ok v rest) :
    v ≠ .undefined ∧ ∀ s, v = .str s → s.length + 2 + rest.length ≤ input.length := by
  cases fuel with
  | zero => simp [parseValue] at h
  | succ f =>
    have hws := skipWs_length_le input
    rw [parseValue.eq_def] at h
    dsimp only at h
    split at h
    · simp at h
    · rename_i c cs hskip
      rw [hskip] at hws
      simp only [List.length_cons] at hws
      split at h
      · split at h
        · simp at h
        · rename_i s0 rest0 hp
          have := parseChars_length cs.length cs s0 rest0 (Nat.le_refl _) hp
          simp only [ParseResult.ok.injEq] at h
          obtain ⟨rfl, rfl⟩ := h
          refine ⟨by simp, ?_⟩
          intro s hs
          simp only [JSValue.str.injEq] at hs
          subst hs
          omega
      · split at h
        · split at h
          · simp at h
          · split at h
            · simp only [ParseResult.ok.injEq] at h
              obtain ⟨rfl, rfl⟩ := h
              simp
            · split at h
              · simp only [ParseResult.ok.injEq] at h
                obtain ⟨rfl, rfl⟩ := h
                simp
              · simp at h
              · simp at h
        · split at h
          · split at h
            · simp at h
            · split at h
              · simp only [ParseResult.ok.injEq] at h
                obtain ⟨rfl, rfl⟩ := h
                simp
              · split at h
                · simp only [ParseResult.ok.injEq] at h
                  obtain ⟨rfl, rfl⟩ := h
                  simp
                · simp at h
                · simp at h
          · split at h
            · split at h
              · simp only [ParseResult.ok.injEq] at h
                obtain ⟨rfl, rfl⟩ := h
                simp
              · simp at h
            · split at h
              · split at h
                · simp only [ParseResult.ok.injEq] at h
                  obtain ⟨rfl, rfl⟩ := h
                  simp
                · simp at h
              · split at h
                · split at h
                  · simp only [ParseResult.ok.injEq] at h
                    obtain ⟨rfl, rfl⟩ := h
                    simp
                  · simp at h
                · split at h
                  · simp only [ParseResult.ok.injEq] at h
                    obtain ⟨rfl, rfl⟩ := h
                    simp
                  · simp at h

/-- What `JSON_parse` returns was read by `parseValue` from the whole text. -/
theorem JSON_parse_ok (text : JSString) (v : JSValue) (h : JSON_parse text = .ok v) :
    ∃ rest, parseValue (2 * text.length + 1) text = .ok v rest := by
  unfold JSON_parse at h
  split at h
  · rename_i v0 rest hp
    split at h
    · simp only [Except.ok.injEq] at h
      subst h
      exact ⟨rest, hp⟩
    · simp at h
  · simp at h
  · simp at h

/-- The call `JSON.parse(text)` never returns `undefined`. -/
theorem JSON_parse_ne_undefined (text : JSString) (v : JSValue) (h : JSON_parse text = .ok v) :
    v ≠ .undefined := by
  obtain ⟨rest, hp⟩ := JSON_parse_ok text v h
  exact (parseValue_shape _ _ _ _ hp).1

/-- The call `JSON.parse(text)` never returns the text it was given: a string result has
lost at least its two quotes. -/
theorem JSON_parse_ne_text (text : JSString) (v : JSValue) (h : JSON_parse text = .ok v) :
    v ≠ .str text := by
  obtain ⟨rest, hp⟩ := JSON_parse_ok text v h
  intro hv
  have := (parseValue_shape _ _ _ _ hp).2 text hv
  omega

/-! ## The call of `introspectionProvider`, step by step -/

/-- With the endpoint element on the page, the call returns the promise chain
and records exactly one call of `fetch`. -/
theorem introspectionProvider_eq (w : World) (q : JSString) (element : Element)
    (hel : w.document.getElementById "graphqlEndpoint" = some element) :
    introspectionProvider w q =
      (.ok (((w.fetch (fetchArguments element.value q)).andThen
          (fun response => .ok response.text)).andThen
          (fun responseBody => .ok (.fulfilled (parseOrRaw responseBody)))),
        { w with requests := w.requests ++ [fetchArguments element.value q] }) := by
  simp [introspectionProvider, hel]

/-- With a response whose body text is `body`, the promise is fulfilled with
`parseOrRaw body`. -/
theorem introspectionProvider_fulfilled (w : World) (q : JSString) (element : Element)
    (response : Response) (body : JSString)
    (hel : w.document.getElementById "graphqlEndpoint" = some element)
    (hfetch : w.fetch (fetchArguments element.value q) = .fulfilled response)
    (htext : response.text = .fulfilled body) :
    (introspectionProvider w q).1 = .ok (.fulfilled (parseOrRaw body)) := by
  rw [introspectionProvider_eq w q element hel]
  simp [hfetch, htext, Promise.andThen]

/-- When the promise is fulfilled, the endpoint element was found, `fetch` gave
a response, and its body text was read. -/
theorem introspectionProvider_fulfilled_inv (w : World) (q : JSString) (v : JSValue)
    (h : (introspectionProvider w q).1 = .ok (.fulfilled v)) :
    ∃ element response body,
      w.document.getElementById "graphqlEndpoint" = some element ∧
      w.fetch (fetchArguments element.value q) = .fulfilled response ∧
      response.text = .fulfilled body ∧ v = parseOrRaw body := by
  cases hel : w.document.getElementById "graphqlEndpoint" with
  | none => simp [introspectionProvider, hel] at h
  | some element =>
    rw [introspectionProvider_eq w q element hel] at h
    simp only [Except.ok.injEq] at h
    cases hfetch : w.fetch (fetchArguments element.value q) with
    | pending => simp [hfetch, Promise.andThen] at h
    | rejected e => simp [hfetch, Promise.andThen] at h
    | fulfilled response =>
      cases htext : response.text with
      | pending => simp [hfetch, htext, Promise.andThen] at h
      | rejected e => simp [hfetch, htext, Promise.andThen] at h
      | fulfilled body =>
        simp [hfetch, htext, Promise.andThen] at h
        exact ⟨element, response, body, rfl, hfetch, htext, h.symm⟩

/-! ## The claims -/

/-- C1: when the response body text `B` is valid JSON, `JSON.parse(B)` giving
`V`, the promise returned by `introspectionProvider(Q)` is fulfilled with `V`,
the parsed value, and `V` is not the text `B` itself. -/
theorem valid_json_resolves_with_parsed_value (w : World) (Q : JSString) (element : Element)
    (response : Response) (B : JSString) (V : JSValue)
    (hel : w.document.getElementById "graphqlEndpoint" = some element)
    (hfetch : w.fetch (fetchArguments element.value Q) = .fulfilled response)
    (htext : response.text = .fulfilled B)
    (hparse : JSON_parse B = .ok V) :
    (introspectionProvider w Q).1 = .ok (.fulfilled V) ∧ V ≠ .str B := by
  refine ⟨?_, JSON_parse_ne_text B V hparse⟩
  rw [introspectionProvider_fulfilled w Q element response B hel hfetch htext]
  simp [parseOrRaw, hparse]

/-- C1, on a page whose endpoint answers `{"data":{}}`: the promise is
fulfilled with the object that has the one property `data`, an empty object. -/
theorem valid_json_resolves_with_parsed_value_witness :
    (introspectionProvider (exampleWorld (.fulfilled (exampleResponse 200 dataBody)))
        exampleQuery).1 = .ok (.fulfilled (.obj [(utf16 "data", .obj [])])) ∧
      JSValue.obj [(utf16 "data", .obj [])] ≠ .str dataBody :=
  valid_json_resolves_with_parsed_value
    (exampleWorld (.fulfilled (exampleResponse 200 dataBody))) exampleQuery
    ⟨"graphqlEndpoint", utf16 "/graphql"⟩ (exampleResponse 200 dataBody)
    dataBody (.obj [(utf16 "data", .obj [])]) (by rfl) (by rfl) (by rfl) (by rfl)

/-- C2: when the response body text `B` is not valid JSON, `JSON.parse(B)`
throwing, the promise returned by `introspectionProvider(Q)` is fulfilled,
not rejected, and its value is the string `B` unchanged. -/
theorem invalid_json_resolves_with_raw_text (w : World) (Q : JSString) (element : Element)
    (response : Response) (B : JSString) (e : JSError)
    (hel : w.document.getElementById "graphqlEndpoint" = some element)
    (hfetch : w.fetch (fetchArguments element.value Q) = .fulfilled response)
    (htext : response.text = .fulfilled B)
    (hparse : JSON_parse B = .error e) :
    (introspectionProvider w Q).1 = .ok (.fulfilled (.str B)) := by
  rw [introspectionProvider_fulfilled w Q element response B hel hfetch htext]
  simp [parseOrRaw, hparse]

/-- C2, for the body `Internal Server Error` sent with status 500: the promise
is fulfilled with that exact string. -/
theorem invalid_json_resolves_with_raw_text_witness :
    JSON_parse (utf16 "Internal Server Error") = .error jsonSyntaxError ∧
      (introspectionProvider
        (exampleWorld (.fulfilled (exampleResponse 500 (utf16 "Internal Server Error"))))
        exampleQuery).1 = .ok (.fulfilled (.str (utf16 "Internal Server Error"))) :=
  ⟨by rfl, invalid_json_resolves_with_raw_text
    (exampleWorld (.fulfilled (exampleResponse 500 (utf16 "Internal Server Error")))) exampleQuery
    ⟨"graphqlEndpoint", utf16 "/graphql"⟩ (exampleResponse 500 (utf16 "Internal Server Error"))
    (utf16 "Internal Server Error") jsonSyntaxError (by rfl) (by rfl) (by rfl) (by rfl)⟩

/-- C3: when `fetch` rejects with `e`, the promise returned by
`introspectionProvider(Q)` is rejected with the same `e`; it is fulfilled
with no value at all, and no `then` callback runs: whatever the two callbacks
are, the chain on the rejected `fetch` promise is rejected with `e`. -/
theorem fetch_rejection_propagates (w : World) (Q : JSString) (element : Element) (e : JSError)
    (hel : w.document.getElementById "graphqlEndpoint" = some element)
    (hfetch : w.fetch (fetchArguments element.value Q) = .rejected e) :
    (introspectionProvider w Q).1 = .ok (.rejected e) ∧
      (∀ v, (introspectionProvider w Q).1 ≠ .ok (.fulfilled v)) ∧
      ∀ (onResponse : Response → Except JSError (Promise JSString))
        (onBody : JSString → Except JSError (Promise JSValue)),
        ((w.fetch (fetchArguments element.value Q)).andThen onResponse).andThen onBody =
          .rejected e := by
  have h : (introspectionProvider w Q).1 = .ok (.rejected e) := by
    rw [introspectionProvider_eq w Q element hel]
    simp [hfetch, Promise.andThen]
  refine ⟨h, ?_, ?_⟩
  · intro v hv
    rw [h] at hv
    simp at hv
  · intro onResponse onBody
    simp [hfetch, Promise.andThen]

/-- C3, for a refused connection. -/
theorem fetch_rejection_propagates_witness :
    (introspectionProvider (exampleWorld (.rejected ⟨"TypeError", "Failed to fetch"⟩))
        exampleQuery).1 = .ok (.rejected ⟨"TypeError", "Failed to fetch"⟩) :=
  (fetch_rejection_propagates (exampleWorld (.rejected ⟨"TypeError", "Failed to fetch"⟩))
    exampleQuery ⟨"graphqlEndpoint", utf16 "/graphql"⟩ ⟨"TypeError", "Failed to fetch"⟩
    (by rfl) (by rfl)).1

/-- C4: the body of the request issued by `introspectionProvider(Q)` is the
text `JSON.stringify({ query: Q })`, that is an opening brace, `"query":`,
the quoted `Q` and a closing brace; parsing the body back gives an object
whose only property is `query`, with value `Q`. -/
theorem request_body_is_query_object (w : World) (Q : JSString) (element : Element)
    (hel : w.document.getElementById "graphqlEndpoint" = some element) :
    ∃ call, (introspectionProvider w Q).2.requests = w.requests ++ [call] ∧
      call.init.body = JSON_stringify ⟨Q⟩ ∧
      call.init.body = utf16 "\x7b\"query\":" ++ QuoteJSONString Q ++ utf16 "\x7d" ∧
      JSON_parse call.init.body = .ok (.obj [(utf16 "query", .str Q)]) := by
  refine ⟨fetchArguments element.value Q, ?_, rfl, ?_, ?_⟩
  · rw [introspectionProvider_eq w Q element hel]
  · have hq : utf16 "\x7b\"query\":" = [0x7B] ++ QuoteJSONString (utf16 "query") ++ [0x3A] := by
      decide
    have hb : utf16 "\x7d" = [0x7D] := by decide
    rw [hq, hb]
    rfl
  · exact JSON_parse_stringify Q

/-- C4, for a query with a quote, a line feed and a backslash in it. -/
theorem request_body_is_query_object_witness :
    ∃ call, (introspectionProvider (exampleWorld .pending) quotedQuery).2.requests =
        [] ++ [call] ∧
      call.init.body = JSON_stringify ⟨quotedQuery⟩ ∧
      call.init.body =
        utf16 "\x7b\"query\":" ++ QuoteJSONString quotedQuery ++ utf16 "\x7d" ∧
      JSON_parse call.init.body = .ok (.obj [(utf16 "query", .str quotedQuery)]) :=
  request_body_is_query_object (exampleWorld .pending) quotedQuery
    ⟨"graphqlEndpoint", utf16 "/graphql"⟩ (by rfl)

/-- C5: every request that a call of `introspectionProvider` issues, whatever
the query and the endpoint value, has the method `post`, which `fetch` sends
as `POST`, and the headers `Accept` and `Content-Type`, both
`application/json`; with the endpoint element on the page exactly one
request is issued. -/
theorem request_is_post_with_json_headers (w : World) (Q : JSString) :
    (∃ issued, (introspectionProvider w Q).2.requests = w.requests ++ issued ∧
      (∀ element, w.document.getElementById "graphqlEndpoint" = some element →
        issued.length = 1) ∧
      ∀ call ∈ issued,
        normalizeMethod call.init.method = utf16 "POST" ∧
        getHeader call.init.headers (utf16 "Accept") = some (utf16 "application/json") ∧
        getHeader call.init.headers (utf16 "Content-Type") = some (utf16 "application/json") ∧
        call.init.headers.length = 2) := by
  cases hel : w.document.getElementById "graphqlEndpoint" with
  | none =>
    refine ⟨[], ?_, ?_, ?_⟩
    · simp [introspectionProvider, hel]
    · intro element h; simp at h
    · intro call h; simp at h
  | some element =>
    refine ⟨[fetchArguments element.value Q], ?_, ?_, ?_⟩
    · rw [introspectionProvider_eq w Q element hel]
    · intro _ _; rfl
    · intro call h
      simp only [List.mem_singleton] at h
      subst h
      refine ⟨?_, ?_, ?_, rfl⟩
      · show normalizeMethod (utf16 "post") = utf16 "POST"
        decide
      · show getHeader [(utf16 "Accept", utf16 "application/json"),
          (utf16 "Content-Type", utf16 "application/json")] (utf16 "Accept") = _
        decide
      · show getHeader [(utf16 "Accept", utf16 "application/json"),
          (utf16 "Content-Type", utf16 "application/json")] (utf16 "Content-Type") = _
        decide

/-- C5, on the example page: one request, sent as `POST` with both headers. -/
theorem request_is_post_with_json_headers_witness :
    ∃ issued, (introspectionProvider (exampleWorld .pending) exampleQuery).2.requests =
        [] ++ issued ∧
      (∀ element, examplePage.getElementById "graphqlEndpoint" = some element →
        issued.length = 1) ∧
      ∀ call ∈ issued,
        normalizeMethod call.init.method = utf16 "POST" ∧
        getHeader call.init.headers (utf16 "Accept") = some (utf16 "application/json") ∧
        getHeader call.init.headers (utf16 "Content-Type") = some (utf16 "application/json") ∧
        call.init.headers.length = 2 :=
  request_is_post_with_json_headers (exampleWorld .pending) exampleQuery

/-- C6: every request that a call of `introspectionProvider` issues, whatever
the query and the endpoint value, has the credentials mode `include`; with
the endpoint element on the page exactly one request is issued. -/
theorem request_includes_credentials (w : World) (Q : JSString) :
    (∃ issued, (introspectionProvider w Q).2.requests = w.requests ++ issued ∧
      (∀ element, w.document.getElementById "graphqlEndpoint" = some element →
        issued.length = 1) ∧
      ∀ call ∈ issued, call.init.credentials = utf16 "include") := by
  cases hel : w.document.getElementById "graphqlEndpoint" with
  | none =>
    refine ⟨[], ?_, ?_, ?_⟩
    · simp [introspectionProvider, hel]
    · intro element h; simp at h
    · intro call h; simp at h
  | some element =>
    refine ⟨[fetchArguments element.value Q], ?_, ?_, ?_⟩
    · rw [introspectionProvider_eq w Q element hel]
    · intro _ _; rfl
    · intro call h
      simp only [List.mem_singleton] at h
      subst h
      rfl

/-- C6, on the example page: one request, with credentials included. -/
theorem request_includes_credentials_witness :
    ∃ issued, (introspectionProvider (exampleWorld .pending) exampleQuery).2.requests =
        [] ++ issued ∧
      (∀ element, examplePage.getElementById "graphqlEndpoint" = some element →
        issued.length = 1) ∧
      ∀ call ∈ issued, call.init.credentials = utf16 "include" :=
  request_includes_credentials (exampleWorld .pending) exampleQuery

/-- C7: each call sends its request to the value the `graphqlEndpoint` element
holds at that call, and leaves the page as it is: when the element holds `u1`
at a first call and, the page having changed in between, `u2` at a second,
the first request goes to `u1` and the second to `u2`. -/
theorem endpoint_read_at_each_call (w : World) (Q1 Q2 : JSString) (e1 e2 : Element)
    (page2 : Document)
    (h1 : w.document.getElementById "graphqlEndpoint" = some e1)
    (h2 : page2.getElementById "graphqlEndpoint" = some e2) :
    ∃ call1 call2,
      (introspectionProvider w Q1).2.requests = w.requests ++ [call1] ∧
      call1.input = e1.value ∧
      (introspectionProvider w Q1).2.document = w.document ∧
      (introspectionProvider { (introspectionProvider w Q1).2 with document := page2 } Q2).2.requests
        = w.requests ++ [call1, call2] ∧
      call2.input = e2.value ∧
      (introspectionProvider { (introspectionProvider w Q1).2 with document := page2 }
        Q2).2.document = page2 := by
  refine ⟨fetchArguments e1.value Q1, fetchArguments e2.value Q2, ?_, rfl, ?_, ?_, rfl, ?_⟩
  · rw [introspectionProvider_eq w Q1 e1 h1]
  · rw [introspectionProvider_eq w Q1 e1 h1]
  · rw [introspectionProvider_eq _ Q2 e2 h2, introspectionProvider_eq w Q1 e1 h1]
    simp
  · rw [introspectionProvider_eq _ Q2 e2 h2]

/-- C7, for an endpoint changed from `/graphql` to `/api/graphql` between two
calls: the requests go to `/graphql`, then to `/api/graphql`. -/
theorem endpoint_read_at_each_call_witness :
    ∃ call1 call2,
      (introspectionProvider (exampleWorld .pending) exampleQuery).2.requests = [] ++ [call1] ∧
      call1.input = utf16 "/graphql" ∧
      (introspectionProvider (exampleWorld .pending) exampleQuery).2.document = examplePage ∧
      (introspectionProvider
        { (introspectionProvider (exampleWorld .pending) exampleQuery).2 with
          document := ⟨[⟨"graphqlEndpoint", utf16 "/api/graphql"⟩, ⟨"voyager", []⟩]⟩ }
        exampleQuery).2.requests = [] ++ [call1, call2] ∧
      call2.input = utf16 "/api/graphql" ∧
      (introspectionProvider
        { (introspectionProvider (exampleWorld .pending) exampleQuery).2 with
          document := ⟨[⟨"graphqlEndpoint", utf16 "/api/graphql"⟩, ⟨"voyager", []⟩]⟩ }
        exampleQuery).2.document =
          ⟨[⟨"graphqlEndpoint", utf16 "/api/graphql"⟩, ⟨"voyager", []⟩]⟩ :=
  endpoint_read_at_each_call (exampleWorld .pending) exampleQuery exampleQuery
    ⟨"graphqlEndpoint", utf16 "/graphql"⟩ ⟨"graphqlEndpoint", utf16 "/api/graphql"⟩
    ⟨[⟨"graphqlEndpoint", utf16 "/api/graphql"⟩, ⟨"voyager", []⟩]⟩ (by rfl) (by rfl)

/-- C8 as stated fails: for the body text `null`, which is valid JSON, the
promise is fulfilled with `null`; so it is not true that a fulfilled promise
never holds `null`. -/
theorem resolved_value_can_be_null :
    (introspectionProvider (exampleWorld (.fulfilled (exampleResponse 200 (utf16 "null"))))
        exampleQuery).1 = .ok (.fulfilled .null) ∧
      ¬ ∀ (w : World) (Q : JSString) (v : JSValue),
        (introspectionProvider w Q).1 = .ok (.fulfilled v) → v ≠ .null ∧ v ≠ .undefined := by
  have h : (introspectionProvider (exampleWorld (.fulfilled (exampleResponse 200 (utf16 "null"))))
      exampleQuery).1 = .ok (.fulfilled .null) := by rfl
  refine ⟨h, ?_⟩
  intro hall
  exact (hall _ _ _ h).1 rfl

/-- C8, amended: whenever the promise returned by `introspectionProvider` is
fulfilled, its value is never `undefined`, and for the body text `B` of the
response it is either what `JSON.parse(B)` returns (which is `null` for the
text `null`) or, `JSON.parse(B)` throwing, the string `B`. -/
theorem resolved_value_is_parsed_or_raw (w : World) (Q : JSString) (v : JSValue)
    (h : (introspectionProvider w Q).1 = .ok (.fulfilled v)) :
    v ≠ .undefined ∧
      ∃ element response B,
        w.document.getElementById "graphqlEndpoint" = some element ∧
        w.fetch (fetchArguments element.value Q) = .fulfilled response ∧
        response.text = .fulfilled B ∧
        (JSON_parse B = .ok v ∨ ((∃ e, JSON_parse B = .error e) ∧ v = .str B)) := by
  obtain ⟨element, response, B, hel, hfetch, htext, hv⟩ :=
    introspectionProvider_fulfilled_inv w Q v h
  have hcases : JSON_parse B = .ok v ∨ ((∃ e, JSON_parse B = .error e) ∧ v = .str B) := by
    unfold parseOrRaw at hv
    split at hv
    · rename_i v0 hp
      left; rw [hp, hv]
    · rename_i e hp
      right; exact ⟨⟨e, hp⟩, hv⟩
  refine ⟨?_, element, response, B, hel, hfetch, htext, hcases⟩
  rcases hcases with hp | ⟨_, hs⟩
  · exact JSON_parse_ne_undefined B v hp
  · rw [hs]; simp

/-- C8 amended, for the body text `null`: the value `null` is not `undefined`,
and it is what `JSON.parse` returns for that text. -/
theorem resolved_value_is_parsed_or_raw_witness :
    JSValue.null ≠ .undefined ∧
      ∃ element response B,
        examplePage.getElementById "graphqlEndpoint" = some element ∧
        (Promise.fulfilled (exampleResponse 200 (utf16 "null")) : Promise Response) =
          .fulfilled response ∧
        response.text = .fulfilled B ∧
        (JSON_parse B = .ok .null ∨ ((∃ e, JSON_parse B = .error e) ∧ JSValue.null = .str B)) :=
  resolved_value_is_parsed_or_raw
    (exampleWorld (.fulfilled (exampleResponse 200 (utf16 "null")))) exampleQuery .null (by rfl)

/-- C9: running the script calls `GraphQLVoyager.init` exactly once, with the
element `voyager` as first argument and an options object whose
`introspection` is the function `introspectionProvider`.  The script only
hands the provider over: the world after the script is the world this one
call of `init` leaves, so every request made while loading is made inside the
widget, and with a widget that makes none, loading makes none. -/
theorem script_registers_provider
    (GraphQLVoyager_init : Option Element → VoyagerOptions → World → World) (w : World) :
    ∃ call, (loadScript GraphQLVoyager_init w).1 = [call] ∧
      call.container = w.document.getElementById "voyager" ∧
      call.options.introspection = introspectionProvider ∧
      (loadScript GraphQLVoyager_init w).2 = GraphQLVoyager_init call.container call.options w ∧
      ((∀ container options w0, (GraphQLVoyager_init container options w0).requests = w0.requests) →
        (loadScript GraphQLVoyager_init w).2.requests = w.requests) :=
  ⟨_, rfl, rfl, rfl, rfl, fun h => h _ _ w⟩

/-- C9, on the example page with a widget that only keeps its arguments: one
call of `init`, with the element `voyager`, and no request. -/
theorem script_registers_provider_witness :
    ∃ call, (loadScript registerOnly (exampleWorld .pending)).1 = [call] ∧
      call.container = some ⟨"voyager", []⟩ ∧
      call.options.introspection = introspectionProvider ∧
      (loadScript registerOnly (exampleWorld .pending)).2.requests = [] := by
  obtain ⟨call, h1, h2, h3, _, h5⟩ := script_registers_provider registerOnly (exampleWorld .pending)
  exact ⟨call, h1, h2, h3, h5 (fun _ _ _ => rfl)⟩

/-- C10: the value the promise is fulfilled with depends on the body text
alone: two runs, in any two worlds and for any two queries, whose responses
have the same body text `B` are fulfilled with the same value, whatever the
status codes and headers of the two responses; neither is rejected. -/
theorem resolved_value_depends_only_on_body (w1 w2 : World) (Q1 Q2 : JSString)
    (e1 e2 : Element) (r1 r2 : Response) (B : JSString)
    (hel1 : w1.document.getElementById "graphqlEndpoint" = some e1)
    (hel2 : w2.document.getElementById "graphqlEndpoint" = some e2)
    (hfetch1 : w1.fetch (fetchArguments e1.value Q1) = .fulfilled r1)
    (hfetch2 : w2.fetch (fetchArguments e2.value Q2) = .fulfilled r2)
    (htext1 : r1.text = .fulfilled B)
    (htext2 : r2.text = .fulfilled B) :
    (introspectionProvider w1 Q1).1 = (introspectionProvider w2 Q2).1 ∧
      ∃ v, (introspectionProvider w1 Q1).1 = .ok (.fulfilled v) ∧
        (introspectionProvider w2 Q2).1 = .ok (.fulfilled v) := by
  have h1 := introspectionProvider_fulfilled w1 Q1 e1 r1 B hel1 hfetch1 htext1
  have h2 := introspectionProvider_fulfilled w2 Q2 e2 r2 B hel2 hfetch2 htext2
  exact ⟨by rw [h1, h2], parseOrRaw B, h1, h2⟩

/-- C10, for the body `{"errors":[]}` sent once with status 200 and once with
status 500 and a header: both runs are fulfilled with the same object. -/
theorem resolved_value_depends_only_on_body_witness :
    (introspectionProvider
        (exampleWorld (.fulfilled (exampleResponse 200 errorsBody))) exampleQuery).1 =
      (introspectionProvider
        (exampleWorld (.fulfilled ⟨500, utf16 "Internal Server Error",
          [(utf16 "Content-Type", utf16 "text/plain")], .fulfilled errorsBody⟩))
        exampleQuery).1 ∧
      ∃ v, (introspectionProvider
          (exampleWorld (.fulfilled (exampleResponse 200 errorsBody)))
          exampleQuery).1 = .ok (.fulfilled v) ∧
        (introspectionProvider
          (exampleWorld (.fulfilled ⟨500, utf16 "Internal Server Error",
            [(utf16 "Content-Type", utf16 "text/plain")], .fulfilled errorsBody⟩))
          exampleQuery).1 = .ok (.fulfilled v) :=
  resolved_value_depends_only_on_body
    (exampleWorld (.fulfilled (exampleResponse 200 errorsBody)))
    (exampleWorld (.fulfilled ⟨500, utf16 "Internal Server Error",
      [(utf16 "Content-Type", utf16 "text/plain")], .fulfilled errorsBody⟩))
    exampleQuery exampleQuery ⟨"graphqlEndpoint", utf16 "/graphql"⟩
    ⟨"graphqlEndpoint", utf16 "/graphql"⟩ (exampleResponse 200 errorsBody)
    ⟨500, utf16 "Internal Server Error", [(utf16 "Content-Type", utf16 "text/plain")],
      .fulfilled errorsBody⟩
    errorsBody (by rfl) (by rfl) (by rfl) (by rfl) (by rfl) (by rfl)

end Voyager
